import Mathlib

/-!
Verification of the ledger/transfer core of the Bank-app repository
(src/bank_full_system.cpp and src/bank.cpp).

Modelling conventions (shallow embedding):
* C++ `std::string` is modelled as `List Char` (`Str`).
* C++ `double` balances/amounts are modelled as `ℚ`; the only arithmetic the
  source performs on them is addition, subtraction and comparison.
  `std::to_string(double)` (printf `%f`) is modelled as exact decimal
  formatting with six fractional digits (`formatQ6`), rounding to nearest.
* C++ `int` account numbers are modelled as `ℤ` (32-bit overflow is not
  modelled; the source never arithmetically combines account numbers).
* C++ exceptions are modelled with `Except` / `Option` result types; the
  distinct exception messages of the source are mapped to the error kinds
  of the spec's taxonomy (`BankError`).
* Files are modelled explicitly: the accounts file as `Option Str`
  (`none` = the file does not exist) and the append-only transaction file
  as `Str`, together with writability flags standing for whether an
  `ofstream` open succeeds (`FileState`).
-/

set_option autoImplicit false
set_option maxRecDepth 200000

/-- Characters of a C++ `std::string`. -/
abbrev Str := List Char

/-- Whitespace as skipped by `strtol`/`strtod` (C `isspace`). -/
def isSpaceC (c : Char) : Bool :=
  c = ' ' || c = '\t' || c = '\n' || c = '\x0b' || c = '\x0c' || c = '\r'

/-- Numeric value of a decimal digit character. -/
def charToDigit (c : Char) : ℕ := c.toNat - '0'.toNat

/-- Value of a big-endian string of decimal digit characters. -/
def digitsToNat (s : Str) : ℕ := s.foldl (fun a c => 10 * a + charToDigit c) 0

/-- Decimal digit characters of `n`, most significant first; `[]` for `n = 0`.
The first argument is fuel making the recursion structural; `n` itself is
always enough fuel. -/
def natToStrAux : ℕ → ℕ → Str
  | 0, _ => []
  | fuel + 1, n => if n = 0 then [] else natToStrAux fuel (n / 10) ++ [Nat.digitChar (n % 10)]

/-- Model of `std::to_string` on a natural number. -/
def natToStr (n : ℕ) : Str := if n = 0 then ['0'] else natToStrAux n n

/-- Model of `std::to_string` on an `int`. -/
def intToStr (z : ℤ) : Str := if z < 0 then '-' :: natToStr z.natAbs else natToStr z.natAbs

/-- Left-pad a digit string with zeros to six characters (the fractional
part of printf `%f`). -/
def pad6 (s : Str) : Str := List.replicate (6 - s.length) '0' ++ s

/-- Model of `std::to_string` on a `double`: printf `%f` formatting with six
fractional digits, rounding to nearest. -/
def formatQ6 (q : ℚ) : Str :=
  let n : ℤ := round (q * 1000000)
  (if n < 0 then ['-'] else []) ++
    natToStr (n.natAbs / 1000000) ++ '.' :: pad6 (natToStr (n.natAbs % 1000000))

/-- Optional leading sign, as consumed by `strtol`/`strtod`. -/
def signSplit (s : Str) : ℤ × Str :=
  match s with
  | [] => (1, [])
  | c :: r => if c = '-' then (-1, r) else if c = '+' then (1, r) else (1, s)

/-- Model of `std::stoi`: skip whitespace, optional sign, then a nonempty run
of decimal digits; everything after the digits is ignored; `none` when no
digit can be consumed (`std::invalid_argument`). `int` overflow
(`std::out_of_range`) is not modelled: the result is an unbounded `ℤ`. -/
def stoi? (s : Str) : Option ℤ :=
  let s1 := s.dropWhile isSpaceC
  let p := signSplit s1
  let d := p.2.takeWhile Char.isDigit
  if d.isEmpty then none else some (p.1 * (digitsToNat d : ℤ))

/-- Model of `std::stod` on the decimal subset the program produces and
consumes: skip whitespace, optional sign, digits with an optional fractional
part; everything after is ignored; `none` when no digit can be consumed
(`std::invalid_argument`). Exponents, hexadecimal, `inf`/`nan` and double
rounding are not modelled. -/
def stod? (s : Str) : Option ℚ :=
  let s1 := s.dropWhile isSpaceC
  let p := signSplit s1
  let d := p.2.takeWhile Char.isDigit
  let r := p.2.dropWhile Char.isDigit
  let hasDot : Bool := match r with
    | c :: _ => c = '.'
    | [] => false
  let frac : Str := match r with
    | c :: r2 => if c = '.' then r2.takeWhile Char.isDigit else []
    | [] => []
  if hasDot then
    if d.isEmpty && frac.isEmpty then none
    else some ((p.1 : ℚ) * ((digitsToNat d : ℚ) + (digitsToNat frac : ℚ) / 10 ^ frac.length))
  else if d.isEmpty then none
  else some ((p.1 : ℚ) * (digitsToNat d : ℚ))

/-- Model of `std::string::find(c, from)` restricted to the suffix it is
called on: index of the first occurrence of `c`, `none` for `npos`. -/
def strFind (c : Char) : Str → Option ℕ
  | [] => none
  | d :: r => if d = c then some 0 else (strFind c r).map (· + 1)

/-- Error kinds raised by the source (spec section 7 taxonomy):
`std::invalid_argument` → `invalidArgument`; the `runtime_error`s for
insufficient balance, missing accounts and unopenable files →
`insufficientFunds`, `accountNotFound`, `ioError`. -/
inductive BankError where
  | invalidArgument
  | insufficientFunds
  | accountNotFound
  | ioError
  deriving DecidableEq, Repr

/-- The `BankAccount` record of both source files: owner name (from `Person`),
account number (from `BankBase`) and private balance. -/
structure BankAccount where
  name : Str
  accNumber : ℤ
  balance : ℚ
  deriving DecidableEq, Repr

/-- Placeholder used for out-of-range `getD` list indexing; every index the
manager uses comes from `findAccountIndex` and is in range. -/
def dummyAccount : BankAccount := ⟨[], 0, 0⟩

/-- BankAccount::operator+ (bank_full_system.cpp lines 94-99): deposit,
rejecting negative amounts, returning the updated copy. -/
def BankAccount.add (acc : BankAccount) (amt : ℚ) : Except BankError BankAccount :=
  if amt < 0 then .error .invalidArgument
  else .ok { acc with balance := acc.balance + amt }

/-- BankAccount::operator- (bank_full_system.cpp lines 102-108): withdrawal,
rejecting negative amounts and amounts above the balance, returning the
updated copy. -/
def BankAccount.sub (acc : BankAccount) (amt : ℚ) : Except BankError BankAccount :=
  if amt < 0 then .error .invalidArgument
  else if acc.balance < amt then .error .insufficientFunds
  else .ok { acc with balance := acc.balance - amt }

/-- BankAccount::updateBalance(double) (bank_full_system.cpp lines 119-122):
deposit, rejecting negative amounts; mutation modelled by returning the
updated record. -/
def BankAccount.updateBalance (acc : BankAccount) (amt : ℚ) : Except BankError BankAccount :=
  if amt < 0 then .error .invalidArgument
  else .ok { acc with balance := acc.balance + amt }

/-- BankAccount::updateBalance(double, bool) (bank_full_system.cpp lines
124-132): deposit or, when the flag is set, withdrawal with a balance check. -/
def BankAccount.updateBalance2 (acc : BankAccount) (amt : ℚ) (w : Bool) :
    Except BankError BankAccount :=
  if amt < 0 then .error .invalidArgument
  else if w then
    if acc.balance < amt then .error .insufficientFunds
    else .ok { acc with balance := acc.balance - amt }
  else .ok { acc with balance := acc.balance + amt }

/-- BankAccount::update(double) (bank.cpp lines 91-93): unchecked deposit. -/
def BankAccount.update (acc : BankAccount) (amt : ℚ) : BankAccount :=
  { acc with balance := acc.balance + amt }

/-- BankAccount::update(double, bool) (bank.cpp lines 95-102): deposit or
withdrawal; the withdrawal checks the balance but not the sign of the
amount. -/
def BankAccount.update2 (acc : BankAccount) (amt : ℚ) (w : Bool) :
    Except BankError BankAccount :=
  if w then
    if acc.balance < amt then .error .insufficientFunds
    else .ok { acc with balance := acc.balance - amt }
  else .ok { acc with balance := acc.balance + amt }

/-- BankAccount::toRecord (bank_full_system.cpp lines 151-154); identical to
BankAccount::serialize (bank.cpp lines 119-121): one text line
`name|acc|balance` terminated by a newline. -/
def BankAccount.toRecord (acc : BankAccount) : Str :=
  acc.name ++ '|' :: (intToStr acc.accNumber ++ '|' :: (formatQ6 acc.balance ++ ['\n']))

/-- BankAccount::serialize (bank.cpp): character-for-character the same
format as `BankAccount.toRecord`. -/
def BankAccount.serialize : BankAccount → Str := BankAccount.toRecord

/-- BankAccount::fromRecord (bank_full_system.cpp lines 156-164); identical
logic to BankAccount::deserialize (bank.cpp lines 123-132).

The C++ computes `p1 = rec.find('|')`, `p2 = rec.find('|', p1+1)` and takes
`substr`s; `find` returns `npos = SIZE_MAX` on failure and `npos + 1` wraps
to `0`, so:
* no `'|'` at all: all three `substr`s yield the whole record;
* one `'|'` at `p1`: the id field is the whole tail after `p1` (the count
  `p2-(p1+1)` is huge and clamps), and the balance `substr(p2+1)` wraps to
  the whole record.
`strFind` on the dropped suffix returns the offset `q` with `p2 = p1+1+q`.
`none` models an escaping exception (`std::invalid_argument` from
`stoi`/`stod` when no digits can be consumed). -/
def BankAccount.fromRecord (rec : Str) : Option BankAccount :=
  match strFind '|' rec with
  | none =>
    match stoi? rec, stod? rec with
    | some acc, some bal => some ⟨rec, acc, bal⟩
    | _, _ => none
  | some p1 =>
    let n := rec.take p1
    match strFind '|' (rec.drop (p1 + 1)) with
    | none =>
      match stoi? (rec.drop (p1 + 1)), stod? rec with
      | some acc, some bal => some ⟨n, acc, bal⟩
      | _, _ => none
    | some q =>
      match stoi? ((rec.drop (p1 + 1)).take q), stod? (rec.drop (p1 + 1 + q + 1)) with
      | some acc, some bal => some ⟨n, acc, bal⟩
      | _, _ => none

/-- BankAccount::deserialize (bank.cpp): the same parsing logic as
`BankAccount.fromRecord` (the substr count `p2 - p1 - 1` equals
`p2 - (p1 + 1)`). -/
def BankAccount.deserialize : Str → Option BankAccount := BankAccount.fromRecord

/-- The Transaction record (bank_full_system.cpp lines 51-65). -/
structure Transaction where
  fromAcc : ℤ
  toAcc : ℤ
  amount : ℚ
  note : Str
  deriving DecidableEq, Repr

/-- Transaction::toRecord (bank_full_system.cpp lines 61-64): one text line
`from|to|amount|note` terminated by a newline, with the amount printed by
`std::to_string(double)`. -/
def Transaction.toRecord (t : Transaction) : Str :=
  intToStr t.fromAcc ++ '|' :: (intToStr t.toAcc ++ '|' ::
    (formatQ6 t.amount ++ '|' :: (t.note ++ ['\n'])))

/-- Worker for `splitLines`, accumulating the current line in reverse.
Models `std::getline(ifs, line)` with delimiter `'\n'`: a line per newline,
a final line for trailing characters after the last newline, and no extra
empty line when the content ends in a newline (the next `getline` hits end
of file having extracted nothing and fails). -/
def splitLinesGo (cur : Str) : Str → List Str
  | [] => [cur.reverse]
  | c :: r =>
    if c = '\n' then
      match r with
      | [] => [cur.reverse]
      | _ => cur.reverse :: splitLinesGo [] r
    else splitLinesGo (c :: cur) r

/-- The sequence of lines `getline` yields on a file content. -/
def splitLines (s : Str) : List Str :=
  match s with
  | [] => []
  | _ => splitLinesGo [] s

/-- File content consisting of the given lines, each newline-terminated. -/
def joinLines (lines : List Str) : Str := (lines.map (· ++ ['\n'])).flatten

/-- AccountManager::loadAllAccounts (bank_full_system.cpp lines 184-200):
a missing file yields the empty list; empty lines are skipped (`continue`);
a line whose parse throws is skipped (`catch (...) {}`); each remaining
line contributes one record, in file order. -/
def loadAllAccounts (file : Option Str) : List BankAccount :=
  match file with
  | none => []
  | some content =>
    (splitLines content).filterMap fun line =>
      if line = [] then none else BankAccount.fromRecord line

/-- Worker for `loadAll` (bank.cpp): lines of length at most 2 are skipped;
a parse failure on a longer line is an uncaught exception (`none`) aborting
the whole load. -/
def loadAllGo : List Str → Option (List BankAccount)
  | [] => some []
  | line :: rest =>
    if 2 < line.length then
      match BankAccount.deserialize line with
      | none => none
      | some a => (loadAllGo rest).map (a :: ·)
    else loadAllGo rest

/-- AccountManager::loadAll (bank.cpp lines 148-159): reads every line of
`bankdata.txt` (a missing file behaves like an empty one: `getline` on the
failed stream extracts nothing), keeps lines longer than two characters and
deserializes them with no exception handler. -/
def loadAll (file : Option Str) : Option (List BankAccount) :=
  match file with
  | none => some []
  | some content => loadAllGo (splitLines content)

/-- Serialized form of a full account list, one record line each, as written
by AccountManager::saveAllAccounts. -/
def serializeAll (accounts : List BankAccount) : Str :=
  (accounts.map BankAccount.toRecord).flatten

/-- The observable file state of the manager: the accounts file content
(`none` = not present), the transaction journal content, and flags saying
whether opening each file for writing succeeds. -/
structure FileState where
  accountsFile : Option Str
  transactionsFile : Str
  accountsWritable : Bool
  transactionsWritable : Bool
  deriving DecidableEq, Repr

/-- AccountManager::saveAllAccounts (bank_full_system.cpp lines 203-208):
overwrite the accounts file with every record, or throw when the file
cannot be opened for writing. -/
def saveAllAccounts (accounts : List BankAccount) (fs : FileState) :
    FileState × Except BankError Unit :=
  if fs.accountsWritable then
    ({ fs with accountsFile := some (serializeAll accounts) }, .ok ())
  else (fs, .error .ioError)

/-- AccountManager::findAccountIndex (bank_full_system.cpp lines 211-216):
linear scan, first match wins; the C++ sentinel `-1` is modelled as
`none`. -/
def findAccountIndex : List BankAccount → ℤ → Option ℕ
  | [], _ => none
  | a :: rest, accNo =>
    if a.accNumber = accNo then some 0 else (findAccountIndex rest accNo).map (· + 1)

/-- AccountManager::transferFunds (bank_full_system.cpp lines 219-243).
The state is threaded explicitly; an `Except.error` result models an
escaping exception, alongside whatever state was already committed. The
error branches of the two `updateBalance` calls are unreachable (the guards
already ran) but are kept so the definition mirrors the source. -/
def transferFunds (fromAcc toAcc : ℤ) (amount : ℚ) (fs : FileState) :
    FileState × Except BankError Bool :=
  if amount ≤ 0 then (fs, .error .invalidArgument)
  else
    let list := loadAllAccounts fs.accountsFile
    match findAccountIndex list fromAcc, findAccountIndex list toAcc with
    | some idxFrom, some idxTo =>
      let aFrom := list.getD idxFrom dummyAccount
      if aFrom.balance < amount then (fs, .error .insufficientFunds)
      else
        match aFrom.updateBalance2 amount true with
        | .error e => (fs, .error e)
        | .ok aFrom2 =>
          let list1 := list.set idxFrom aFrom2
          match (list1.getD idxTo dummyAccount).updateBalance amount with
          | .error e => (fs, .error e)
          | .ok aTo2 =>
            let list2 := list1.set idxTo aTo2
            let tx : Transaction := ⟨fromAcc, toAcc, amount, ("transfer").data⟩
            if fs.transactionsWritable then
              let fs1 := { fs with transactionsFile := fs.transactionsFile ++ tx.toRecord }
              match saveAllAccounts list2 fs1 with
              | (fs2, .ok _) => (fs2, .ok true)
              | (fs2, .error e) => (fs2, .error e)
            else (fs, .error .ioError)
    | _, _ => (fs, .error .accountNotFound)

/-- The ten decimal digit characters. -/
def digitChars : Str := ("0123456789").data

/-- The in-memory account list as committed by a successful transfer: the
withdrawal applied at index `i`, then the deposit at index `j` of the
resulting list (so a self-transfer nets to no change, as in the source). -/
def committedList (l : List BankAccount) (i j : ℕ) (amount : ℚ) : List BankAccount :=
  let aFrom := l.getD i dummyAccount
  let l1 := l.set i { aFrom with balance := aFrom.balance - amount }
  let aTo := l1.getD j dummyAccount
  l1.set j { aTo with balance := aTo.balance + amount }

/-- The backing files after the demo programme created Alice (1001, 1500.00)
and Bob (1002, 800.00): the store of the spec's transfer scenario, an empty
journal, and both files writable. -/
def demoState : FileState :=
  ⟨some (("Alice|1001|1500.000000\nBob|1002|800.000000\n").data), [], true, true⟩

/-! ### Decimal digit and formatting lemmas -/

theorem digitChar_mem_digitChars : ∀ d, d < 10 → Nat.digitChar d ∈ digitChars := by decide

theorem charToDigit_digitChar : ∀ d, d < 10 → charToDigit (Nat.digitChar d) = d := by decide

theorem digitChars_spec : ∀ c ∈ digitChars, c.isDigit = true ∧ isSpaceC c = false ∧
    c ≠ '-' ∧ c ≠ '+' ∧ c ≠ '.' ∧ c ≠ '|' ∧ c ≠ '\n' := by decide

theorem natToStrAux_zero (f : ℕ) : natToStrAux f 0 = [] := by
  cases f <;> simp [natToStrAux]

theorem digitsToNat_append (s : Str) (c : Char) :
    digitsToNat (s ++ [c]) = 10 * digitsToNat s + charToDigit c := by
  simp [digitsToNat, List.foldl_append]

theorem digitsToNat_natToStrAux (f : ℕ) : ∀ n, n ≤ f → digitsToNat (natToStrAux f n) = n := by
  induction f with
  | zero =>
    intro n hn
    have : n = 0 := Nat.le_zero.mp hn
    simp [this, natToStrAux, digitsToNat]
  | succ f ih =>
    intro n hn
    by_cases h0 : n = 0
    · simp [h0, natToStrAux, digitsToNat]
    · have hdiv : n / 10 < n := Nat.div_lt_self (Nat.pos_of_ne_zero h0) (by norm_num)
      simp only [natToStrAux, if_neg h0]
      rw [digitsToNat_append, ih (n / 10) (by omega),
        charToDigit_digitChar (n % 10) (Nat.mod_lt _ (by norm_num))]
      omega

theorem digitsToNat_natToStr (n : ℕ) : digitsToNat (natToStr n) = n := by
  by_cases h : n = 0
  · simp [h, natToStr, digitsToNat, charToDigit]
  · simp [natToStr, h, digitsToNat_natToStrAux n n le_rfl]

theorem natToStr_ne_nil (n : ℕ) : natToStr n ≠ [] := by
  by_cases h : n = 0
  · simp [h, natToStr]
  · have hf : ∃ f, n = f + 1 := ⟨n - 1, by omega⟩
    obtain ⟨f, rfl⟩ := hf
    simp [natToStr, natToStrAux]

theorem natToStrAux_subset (f : ℕ) : ∀ n c, c ∈ natToStrAux f n → c ∈ digitChars := by
  induction f with
  | zero => intro n c hc; simp [natToStrAux] at hc
  | succ f ih =>
    intro n c hc
    by_cases h0 : n = 0
    · simp [h0, natToStrAux] at hc
    · simp only [natToStrAux, if_neg h0, List.mem_append, List.mem_singleton] at hc
      rcases hc with hc | hc
      · exact ih _ _ hc
      · exact hc ▸ digitChar_mem_digitChars _ (Nat.mod_lt _ (by norm_num))

theorem natToStr_subset (n : ℕ) : ∀ c ∈ natToStr n, c ∈ digitChars := by
  intro c hc
  by_cases h : n = 0
  · simp [h, natToStr] at hc
    simp [hc, digitChars]
  · simp only [natToStr, if_neg h] at hc
    exact natToStrAux_subset n n c hc

theorem natToStrAux_length (f : ℕ) : ∀ n k, n < 10 ^ k → (natToStrAux f n).length ≤ k := by
  induction f with
  | zero => intro n k _; simp [natToStrAux]
  | succ f ih =>
    intro n k hk
    by_cases h0 : n = 0
    · simp [h0, natToStrAux]
    · cases k with
      | zero => simp at hk; omega
      | succ k =>
        simp only [natToStrAux, if_neg h0, List.length_append, List.length_cons,
          List.length_nil]
        have hdiv : n / 10 < 10 ^ k := by
          rw [Nat.div_lt_iff_lt_mul (by norm_num)]
          calc n < 10 ^ (k + 1) := hk
          _ = 10 ^ k * 10 := by ring
        have := ih (n / 10) k hdiv
        omega

theorem natToStr_length (n k : ℕ) (h : n < 10 ^ k) (hk : 0 < k) : (natToStr n).length ≤ k := by
  by_cases h0 : n = 0
  · simp [h0, natToStr]; omega
  · simp only [natToStr, if_neg h0]
    exact natToStrAux_length n n k h

theorem digitsToNat_replicate_zero (j : ℕ) (s : Str) :
    digitsToNat (List.replicate j '0' ++ s) = digitsToNat s := by
  induction j with
  | zero => simp
  | succ j ih =>
    simp only [List.replicate_succ, List.cons_append, digitsToNat, List.foldl_cons]
    have h0 : 10 * 0 + charToDigit '0' = 0 := by decide
    rw [h0]
    exact ih

theorem digitsToNat_pad6 (s : Str) : digitsToNat (pad6 s) = digitsToNat s :=
  digitsToNat_replicate_zero _ s

theorem pad6_length (s : Str) (h : s.length ≤ 6) : (pad6 s).length = 6 := by
  simp [pad6]; omega

theorem pad6_subset (s : Str) (hs : ∀ c ∈ s, c ∈ digitChars) :
    ∀ c ∈ pad6 s, c ∈ digitChars := by
  intro c hc
  simp only [pad6, List.mem_append, List.mem_replicate] at hc
  rcases hc with hc | hc
  · simp [hc.2, digitChars]
  · exact hs c hc

/-! ### takeWhile, dropWhile, find and substring lemmas -/

theorem takeWhile_append_sat {p : Char → Bool} :
    ∀ l r : Str, (∀ c ∈ l, p c = true) → (l ++ r).takeWhile p = l ++ r.takeWhile p := by
  intro l r hl
  induction l with
  | nil => simp
  | cons c l ih =>
    have hc : p c = true := hl c (List.mem_cons_self c l)
    simp only [List.cons_append, List.takeWhile_cons, hc, if_true]
    rw [ih (fun d hd => hl d (List.mem_cons_of_mem c hd))]

theorem dropWhile_append_sat {p : Char → Bool} :
    ∀ l r : Str, (∀ c ∈ l, p c = true) → (l ++ r).dropWhile p = r.dropWhile p := by
  intro l r hl
  induction l with
  | nil => simp
  | cons c l ih =>
    have hc : p c = true := hl c (List.mem_cons_self c l)
    simp only [List.cons_append, List.dropWhile_cons, hc, if_true]
    exact ih fun d hd => hl d (List.mem_cons_of_mem c hd)

theorem takeWhile_nil_of_head {p : Char → Bool} (r : Str)
    (hr : ∀ c, r.head? = some c → p c = false) : r.takeWhile p = [] := by
  cases r with
  | nil => rfl
  | cons c r => simp [List.takeWhile_cons, hr c rfl]

theorem dropWhile_self_of_head {p : Char → Bool} (r : Str)
    (hr : ∀ c, r.head? = some c → p c = false) : r.dropWhile p = r := by
  cases r with
  | nil => rfl
  | cons c r => simp [List.dropWhile_cons, hr c rfl]

theorem strFind_append (a b : Str) (c : Char) (ha : c ∉ a) :
    strFind c (a ++ c :: b) = some a.length := by
  induction a with
  | nil => simp [strFind]
  | cons d a ih =>
    have hd : d ≠ c := fun h => ha (h ▸ List.mem_cons_self d a)
    have ha' : c ∉ a := fun h => ha (List.mem_cons_of_mem d h)
    simp only [List.cons_append, strFind, if_neg hd, List.append_eq, ih ha',
      Option.map_some', List.length_cons]

theorem take_len_append (a b : Str) : (a ++ b).take a.length = a := by
  induction a with
  | nil => simp
  | cons c a ih => simp [ih]

theorem drop_len_cons (a b : Str) (c : Char) : (a ++ c :: b).drop (a.length + 1) = b := by
  induction a with
  | nil => simp
  | cons d a ih => simp [ih]

/-! ### stoi and stod on the strings the program prints -/

theorem intToStr_cases (z : ℤ) :
    (0 ≤ z ∧ intToStr z = natToStr z.natAbs) ∨
      (z < 0 ∧ intToStr z = '-' :: natToStr z.natAbs) := by
  by_cases h : z < 0
  · exact Or.inr ⟨h, by simp [intToStr, h]⟩
  · exact Or.inl ⟨le_of_not_lt h, by simp [intToStr, h]⟩

theorem intToStr_no_pipe (z : ℤ) : '|' ∉ intToStr z := by
  intro hc
  rcases intToStr_cases z with ⟨_, h⟩ | ⟨_, h⟩
  · rw [h] at hc
    exact absurd rfl (digitChars_spec _ (natToStr_subset _ _ hc)).2.2.2.2.2.1
  · rw [h] at hc
    rcases List.mem_cons.mp hc with h1 | h1
    · exact absurd h1 (by decide)
    · exact absurd rfl (digitChars_spec _ (natToStr_subset _ _ h1)).2.2.2.2.2.1

theorem stoi?_natToStr_prefix (m : ℕ) :
    stoi? (natToStr m) = some (m : ℤ) := by
  obtain ⟨c, r, hs⟩ := List.exists_cons_of_ne_nil (natToStr_ne_nil m)
  have hsub : ∀ d ∈ natToStr m, d ∈ digitChars := natToStr_subset m
  have hc : c ∈ digitChars := hsub c (by rw [hs]; exact List.mem_cons_self c r)
  obtain ⟨hdig, hsp, hminus, hplus, _, _, _⟩ := digitChars_spec c hc
  have hdrop : (natToStr m).dropWhile isSpaceC = natToStr m := by
    apply dropWhile_self_of_head
    intro d hd
    rw [hs] at hd
    simp only [List.head?_cons, Option.some.injEq] at hd
    exact hd ▸ hsp
  have hsign : signSplit (natToStr m) = (1, natToStr m) := by
    rw [hs]
    simp [signSplit, hminus, hplus]
  have htake : (natToStr m).takeWhile Char.isDigit = natToStr m := by
    have := takeWhile_append_sat (natToStr m) []
      (fun d hd => (digitChars_spec d (hsub d hd)).1)
    simpa using this
  rw [stoi?]
  simp only [hdrop, hsign, htake]
  rw [hs]
  simp only [List.isEmpty_cons, Bool.false_eq_true, if_false]
  rw [← hs, digitsToNat_natToStr]
  simp

theorem stoi?_intToStr (z : ℤ) : stoi? (intToStr z) = some z := by
  rcases intToStr_cases z with ⟨hz, h⟩ | ⟨hz, h⟩
  · rw [h, stoi?_natToStr_prefix]
    congr 1
    exact Int.natAbs_of_nonneg hz
  · rw [h]
    obtain ⟨c, r, hs⟩ := List.exists_cons_of_ne_nil (natToStr_ne_nil z.natAbs)
    have hsub : ∀ d ∈ natToStr z.natAbs, d ∈ digitChars := natToStr_subset z.natAbs
    have hdrop : ('-' :: natToStr z.natAbs).dropWhile isSpaceC = '-' :: natToStr z.natAbs := by
      apply dropWhile_self_of_head
      intro d hd
      simp only [List.head?_cons, Option.some.injEq] at hd
      exact hd ▸ (by decide)
    have hsign : signSplit ('-' :: natToStr z.natAbs) = (-1, natToStr z.natAbs) := by
      simp [signSplit]
    have htake : (natToStr z.natAbs).takeWhile Char.isDigit = natToStr z.natAbs := by
      have := takeWhile_append_sat (natToStr z.natAbs) []
        (fun d hd => (digitChars_spec d (hsub d hd)).1)
      simpa using this
    rw [stoi?]
    simp only [hdrop, hsign, htake]
    rw [hs]
    simp only [List.isEmpty_cons, Bool.false_eq_true, if_false]
    rw [← hs, digitsToNat_natToStr]
    have habs : (z.natAbs : ℤ) = -z := Int.ofNat_natAbs_of_nonpos (le_of_lt hz)
    simp [habs]

theorem stod?_formatQ6_newline (q : ℚ) :
    stod? (formatQ6 q ++ ['\n']) = some ((round (q * 1000000) : ℚ) / 1000000) := by
  set n : ℤ := round (q * 1000000) with hn
  set m : ℕ := n.natAbs with hm'
  set D : Str := natToStr (m / 1000000) with hDdef
  set F : Str := pad6 (natToStr (m % 1000000)) with hFdef
  have hDdig : ∀ d ∈ D, Char.isDigit d = true :=
    fun d hd => (digitChars_spec d (natToStr_subset _ d hd)).1
  have hFdig : ∀ d ∈ F, Char.isDigit d = true :=
    fun d hd => (digitChars_spec d (pad6_subset _ (natToStr_subset _) d hd)).1
  obtain ⟨c, r, hD⟩ := List.exists_cons_of_ne_nil (natToStr_ne_nil (m / 1000000))
  have hc : c ∈ digitChars := natToStr_subset _ c (by rw [hD]; exact List.mem_cons_self c r)
  obtain ⟨hcdig, hcsp, hcminus, hcplus, _, _, _⟩ := digitChars_spec c hc
  have hDc : D = c :: r := by rw [hDdef, hD]
  have htake : (D ++ '.' :: (F ++ ['\n'])).takeWhile Char.isDigit = D := by
    rw [takeWhile_append_sat D _ hDdig]
    simp [List.takeWhile_cons]
  have hdropD : (D ++ '.' :: (F ++ ['\n'])).dropWhile Char.isDigit = '.' :: (F ++ ['\n']) := by
    rw [dropWhile_append_sat D _ hDdig]
    simp [List.dropWhile_cons]
  have hfrac : (F ++ ['\n']).takeWhile Char.isDigit = F := by
    rw [takeWhile_append_sat F _ hFdig]
    simp [List.takeWhile_cons]
  have hFlen : F.length = 6 := by
    rw [hFdef]
    refine pad6_length _ (natToStr_length _ 6 ?_ (by norm_num))
    have : m % 1000000 < 1000000 := Nat.mod_lt _ (by norm_num)
    norm_num
    omega
  have hDval : digitsToNat D = m / 1000000 := by rw [hDdef, digitsToNat_natToStr]
  have hFval : digitsToNat F = m % 1000000 := by
    rw [hFdef, digitsToNat_pad6, digitsToNat_natToStr]
  have hmq : ((m / 1000000 : ℕ) : ℚ) + ((m % 1000000 : ℕ) : ℚ) / 1000000 = (m : ℚ) / 1000000 := by
    have hm : 1000000 * (m / 1000000) + m % 1000000 = m := Nat.div_add_mod m 1000000
    have hcast : ((m / 1000000 : ℕ) : ℚ) * 1000000 + ((m % 1000000 : ℕ) : ℚ) = (m : ℚ) := by
      exact_mod_cast congrArg (fun k : ℕ => (k : ℚ)) (by omega : m / 1000000 * 1000000 + m % 1000000 = m)
    field_simp
    linarith [hcast]
  have hformat : formatQ6 q ++ ['\n'] =
      (if n < 0 then ['-'] else []) ++ (D ++ '.' :: (F ++ ['\n'])) := by
    simp only [formatQ6, ← hn, ← hm', ← hDdef, ← hFdef]
    simp [List.append_assoc]
  rw [hformat]
  by_cases hneg : n < 0
  · have hmn : (m : ℚ) = -(n : ℚ) := by
      have : (m : ℤ) = -n := by rw [hm']; exact Int.ofNat_natAbs_of_nonpos (le_of_lt hneg)
      exact_mod_cast this
    simp only [if_pos hneg, List.singleton_append]
    rw [stod?]
    have hdrop : ('-' :: (D ++ '.' :: (F ++ ['\n']))).dropWhile isSpaceC =
        '-' :: (D ++ '.' :: (F ++ ['\n'])) := by
      apply dropWhile_self_of_head
      intro d hd
      simp only [List.head?_cons, Option.some.injEq] at hd
      exact hd ▸ (by decide)
    have hsign : signSplit ('-' :: (D ++ '.' :: (F ++ ['\n'])))
        = (-1, D ++ '.' :: (F ++ ['\n'])) := by simp [signSplit]
    simp only [hdrop, hsign, htake, hdropD, hfrac]
    rw [hDc]
    simp only [List.isEmpty_cons, Bool.false_and, Bool.false_eq_true, if_false]
    rw [← hDc]
    simp only [decide_True, if_true, hDval, hFval, hFlen, Option.some.injEq]
    rw [show ((10 : ℚ) ^ 6) = 1000000 by norm_num]
    push_cast
    linarith [hmq, hmn]
  · have hmn : (m : ℚ) = (n : ℚ) := by
      have : (m : ℤ) = n := by rw [hm']; exact Int.natAbs_of_nonneg (le_of_not_lt hneg)
      exact_mod_cast this
    simp only [if_neg hneg, List.nil_append]
    rw [stod?]
    have hdrop : (D ++ '.' :: (F ++ ['\n'])).dropWhile isSpaceC =
        D ++ '.' :: (F ++ ['\n']) := by
      apply dropWhile_self_of_head
      intro d hd
      rw [hDc] at hd
      simp only [List.cons_append, List.head?_cons, Option.some.injEq] at hd
      exact hd ▸ hcsp
    have hsign : signSplit (D ++ '.' :: (F ++ ['\n']))
        = (1, D ++ '.' :: (F ++ ['\n'])) := by
      rw [hDc]
      simp [signSplit, hcminus, hcplus]
    simp only [hdrop, hsign, htake, hdropD, hfrac]
    rw [hDc]
    simp only [List.isEmpty_cons, Bool.false_and, Bool.false_eq_true, if_false]
    rw [← hDc]
    simp only [decide_True, if_true, hDval, hFval, hFlen, Option.some.injEq]
    rw [show ((10 : ℚ) ^ 6) = 1000000 by norm_num]
    push_cast
    linarith [hmq, hmn]

theorem fromRecord_toRecord (acc : BankAccount) (hname : '|' ∉ acc.name) :
    BankAccount.fromRecord (BankAccount.toRecord acc) =
      some ⟨acc.name, acc.accNumber, (round (acc.balance * 1000000) : ℚ) / 1000000⟩ := by
  set S : Str := intToStr acc.accNumber ++ '|' :: (formatQ6 acc.balance ++ ['\n']) with hS
  have hrec : BankAccount.toRecord acc = acc.name ++ '|' :: S := rfl
  have h1 : strFind '|' (acc.name ++ '|' :: S) = some acc.name.length :=
    strFind_append _ _ _ hname
  have h3 : (acc.name ++ '|' :: S).take acc.name.length = acc.name :=
    take_len_append acc.name ('|' :: S)
  have h4 : (acc.name ++ '|' :: S).drop (acc.name.length + 1) = S := drop_len_cons _ _ _
  have h5 : strFind '|' S = some (intToStr acc.accNumber).length :=
    strFind_append _ _ _ (intToStr_no_pipe _)
  have h6 : S.take (intToStr acc.accNumber).length = intToStr acc.accNumber :=
    take_len_append (intToStr acc.accNumber) ('|' :: (formatQ6 acc.balance ++ ['\n']))
  have h7 : (acc.name ++ '|' :: S).drop
      (acc.name.length + 1 + (intToStr acc.accNumber).length + 1) =
      formatQ6 acc.balance ++ ['\n'] := by
    have heq : acc.name.length + 1 + (intToStr acc.accNumber).length + 1 =
        (acc.name.length + 1) + ((intToStr acc.accNumber).length + 1) := by omega
    rw [heq, ← List.drop_drop, h4, hS, drop_len_cons]
  rw [hrec, BankAccount.fromRecord]
  simp only [h1, h4, h5, h3, h6, h7, stoi?_intToStr, stod?_formatQ6_newline]

/-! ### Lines of a file -/

theorem splitLinesGo_cons_ne (c : Char) (cur r : Str) (hc : c ≠ '\n') :
    splitLinesGo cur (c :: r) = splitLinesGo (c :: cur) r := by
  simp [splitLinesGo, hc]

theorem splitLinesGo_newline_nil (cur : Str) : splitLinesGo cur ['\n'] = [cur.reverse] := rfl

theorem splitLinesGo_newline_cons (cur : Str) (d : Char) (r : Str) :
    splitLinesGo cur ('\n' :: d :: r) = cur.reverse :: splitLinesGo [] (d :: r) := rfl

theorem splitLines_eq_go (s : Str) (hs : s ≠ []) : splitLines s = splitLinesGo [] s := by
  cases s with
  | nil => exact absurd rfl hs
  | cons c r => rfl

theorem splitLinesGo_append_nil (l : Str) (hl : '\n' ∉ l) :
    ∀ cur, splitLinesGo cur (l ++ ['\n']) = [cur.reverse ++ l] := by
  induction l with
  | nil => intro cur; simp [splitLinesGo_newline_nil]
  | cons c l ih =>
    intro cur
    have hc : c ≠ '\n' := fun h => hl (h ▸ List.mem_cons_self c l)
    have hl' : '\n' ∉ l := fun h => hl (List.mem_cons_of_mem c h)
    rw [List.cons_append, splitLinesGo_cons_ne c cur _ hc, ih hl']
    simp

theorem splitLinesGo_append_cons (l : Str) (hl : '\n' ∉ l) (d : Char) (r : Str) :
    ∀ cur, splitLinesGo cur (l ++ '\n' :: d :: r) =
      (cur.reverse ++ l) :: splitLinesGo [] (d :: r) := by
  induction l with
  | nil => intro cur; simp [splitLinesGo_newline_cons]
  | cons c l ih =>
    intro cur
    have hc : c ≠ '\n' := fun h => hl (h ▸ List.mem_cons_self c l)
    have hl' : '\n' ∉ l := fun h => hl (List.mem_cons_of_mem c h)
    rw [List.cons_append, splitLinesGo_cons_ne c cur _ hc, ih hl']
    simp

theorem joinLines_ne_nil (l : Str) (rest : List Str) : joinLines (l :: rest) ≠ [] := by
  simp only [joinLines, List.map_cons, List.flatten_cons]
  intro h
  have := congrArg List.length h
  simp at this

theorem splitLines_joinLines (lines : List Str) (h : ∀ l ∈ lines, '\n' ∉ l) :
    splitLines (joinLines lines) = lines := by
  induction lines with
  | nil => rfl
  | cons l rest ih =>
    have hl : '\n' ∉ l := h l (List.mem_cons_self l rest)
    have hrest : ∀ l' ∈ rest, '\n' ∉ l' := fun l' hl' => h l' (List.mem_cons_of_mem l hl')
    by_cases hrnil : rest = []
    · subst hrnil
      have hj : joinLines [l] = l ++ ['\n'] := by simp [joinLines]
      rw [hj, splitLines_eq_go _ (by simp), splitLinesGo_append_nil l hl []]
      simp
    · obtain ⟨r0, rest', hr⟩ := List.exists_cons_of_ne_nil hrnil
      have hne : joinLines rest ≠ [] := by rw [hr]; exact joinLines_ne_nil r0 rest'
      obtain ⟨d, rr, hdr⟩ := List.exists_cons_of_ne_nil hne
      have hjoin2 : joinLines (l :: rest) = l ++ '\n' :: d :: rr := by
        have hstep : joinLines (l :: rest) = (l ++ ['\n']) ++ joinLines rest := by
          simp [joinLines]
        rw [hstep, hdr]
        simp
      have hgo : splitLinesGo [] (d :: rr) = splitLines (d :: rr) := rfl
      rw [hjoin2, splitLines_eq_go _ (by simp), splitLinesGo_append_cons l hl d rr [],
        hgo, ← hdr, ih hrest]
      simp

/-! ### List indexing and the account manager -/

theorem getD_set_self {α : Type} : ∀ (l : List α) (i : ℕ) (x d : α), i < l.length →
    (l.set i x).getD i d = x := by
  intro l
  induction l with
  | nil => intro i x d h; simp at h
  | cons a l ih =>
    intro i x d h
    cases i with
    | zero => rfl
    | succ i =>
      simp only [List.set_cons_succ, List.getD_cons_succ]
      exact ih i x d (by simpa using h)

theorem getD_set_ne {α : Type} : ∀ (l : List α) (i j : ℕ) (x d : α), i ≠ j →
    (l.set i x).getD j d = l.getD j d := by
  intro l
  induction l with
  | nil => intro i j x d _; simp
  | cons a l ih =>
    intro i j x d hij
    cases i with
    | zero =>
      cases j with
      | zero => exact absurd rfl hij
      | succ j => rfl
    | succ i =>
      cases j with
      | zero => rfl
      | succ j =>
        simp only [List.set_cons_succ, List.getD_cons_succ]
        exact ih i j x d (fun h => hij (by rw [h]))

theorem getD_map_balance : ∀ (l : List BankAccount) (i : ℕ), i < l.length →
    (l.map BankAccount.balance).getD i 0 = (l.getD i dummyAccount).balance := by
  intro l
  induction l with
  | nil => intro i h; simp at h
  | cons a l ih =>
    intro i h
    cases i with
    | zero => rfl
    | succ i =>
      simp only [List.map_cons, List.getD_cons_succ]
      exact ih i (by simpa using h)

theorem map_balance_set (l : List BankAccount) (i : ℕ) (x : BankAccount) :
    (l.set i x).map BankAccount.balance = (l.map BankAccount.balance).set i x.balance := by
  induction l generalizing i with
  | nil => simp
  | cons a l ih =>
    cases i with
    | zero => rfl
    | succ i =>
      simp only [List.set_cons_succ, List.map_cons, ih]

theorem sum_set (l : List ℚ) : ∀ (i : ℕ) (x : ℚ), i < l.length →
    (l.set i x).sum = l.sum - l.getD i 0 + x := by
  induction l with
  | nil => intro i x h; simp at h
  | cons a l ih =>
    intro i x h
    cases i with
    | zero =>
      simp only [List.set_cons_zero, List.sum_cons, List.getD_cons_zero]
      ring
    | succ i =>
      simp only [List.set_cons_succ, List.sum_cons, List.getD_cons_succ]
      rw [ih i x (by simpa using h)]
      ring

theorem findAccountIndex_lt_length : ∀ (l : List BankAccount) (n : ℤ) (i : ℕ),
    findAccountIndex l n = some i → i < l.length := by
  intro l
  induction l with
  | nil => intro n i h; simp [findAccountIndex] at h
  | cons a l ih =>
    intro n i h
    by_cases ha : a.accNumber = n
    · simp only [findAccountIndex, if_pos ha, Option.some.injEq] at h
      simp [← h]
    · simp only [findAccountIndex, if_neg ha, Option.map_eq_some'] at h
      obtain ⟨j, hj, hji⟩ := h
      have := ih n j hj
      simp only [List.length_cons, ← hji]
      omega

theorem findAccountIndex_accNumber : ∀ (l : List BankAccount) (n : ℤ) (i : ℕ),
    findAccountIndex l n = some i → (l.getD i dummyAccount).accNumber = n := by
  intro l
  induction l with
  | nil => intro n i h; simp [findAccountIndex] at h
  | cons a l ih =>
    intro n i h
    by_cases ha : a.accNumber = n
    · simp only [findAccountIndex, if_pos ha, Option.some.injEq] at h
      rw [← h]
      simpa using ha
    · simp only [findAccountIndex, if_neg ha, Option.map_eq_some'] at h
      obtain ⟨j, hj, hji⟩ := h
      rw [← hji]
      simpa using ih n j hj

theorem transferFunds_commits (fromAcc toAcc : ℤ) (amount : ℚ) (fs : FileState) (i j : ℕ)
    (hamt : 0 < amount)
    (hf : findAccountIndex (loadAllAccounts fs.accountsFile) fromAcc = some i)
    (ht : findAccountIndex (loadAllAccounts fs.accountsFile) toAcc = some j)
    (hbal : amount ≤ ((loadAllAccounts fs.accountsFile).getD i dummyAccount).balance)
    (htw : fs.transactionsWritable = true)
    (haw : fs.accountsWritable = true) :
    transferFunds fromAcc toAcc amount fs =
      (⟨some (serializeAll (committedList (loadAllAccounts fs.accountsFile) i j amount)),
        fs.transactionsFile ++
          Transaction.toRecord ⟨fromAcc, toAcc, amount, ("transfer").data⟩,
        fs.accountsWritable, fs.transactionsWritable⟩,
       .ok true) := by
  have hnle : ¬ amount ≤ 0 := not_le.mpr hamt
  have hnlt : ¬ amount < 0 := not_lt.mpr (le_of_lt hamt)
  have hnbal : ¬ ((loadAllAccounts fs.accountsFile).getD i dummyAccount).balance < amount :=
    not_lt.mpr hbal
  simp only [transferFunds, if_neg hnle, hf, ht, if_neg hnbal,
    BankAccount.updateBalance2, if_neg hnlt, if_pos rfl, BankAccount.updateBalance,
    saveAllAccounts, htw, haw, if_true, committedList]

/-! ### Claims -/

/-- C3: withdrawal via BankAccount::operator- rejects a negative amount with
InvalidArgument, rejects an amount above the balance with InsufficientFunds,
and otherwise decreases the balance by exactly the amount; on either failure
the record is untouched (no updated record is produced), and the withdrawing
overload updateBalance(amount, true) behaves identically. -/
theorem c3_withdraw_spec (acc : BankAccount) (amt : ℚ) :
    (amt < 0 → acc.sub amt = .error .invalidArgument) ∧
    (0 ≤ amt → acc.balance < amt → acc.sub amt = .error .insufficientFunds) ∧
    (0 ≤ amt → amt ≤ acc.balance →
      acc.sub amt = .ok { acc with balance := acc.balance - amt }) ∧
    acc.updateBalance2 amt true = acc.sub amt := by
  refine ⟨fun h => by simp [BankAccount.sub, if_pos h],
    fun h hlt => by simp [BankAccount.sub, if_neg (not_lt.mpr h), if_pos hlt],
    fun h hle => by simp [BankAccount.sub, if_neg (not_lt.mpr h), if_neg (not_lt.mpr hle)],
    by simp [BankAccount.sub, BankAccount.updateBalance2]⟩

theorem c3_withdraw_spec_witness :
    BankAccount.sub ⟨("A").data, 1, 5⟩ (-1) = .error .invalidArgument ∧
    BankAccount.sub ⟨("A").data, 1, 5⟩ 7 = .error .insufficientFunds ∧
    BankAccount.sub ⟨("A").data, 1, 5⟩ 2 = .ok ⟨("A").data, 1, 3⟩ := by
  refine ⟨(c3_withdraw_spec ⟨("A").data, 1, 5⟩ (-1)).1 (by norm_num),
    (c3_withdraw_spec ⟨("A").data, 1, 5⟩ 7).2.1 (by norm_num) (by norm_num), ?_⟩
  have h := (c3_withdraw_spec ⟨("A").data, 1, 5⟩ 2).2.2.1 (by norm_num) (by norm_num)
  rw [h]
  norm_num

/-- C7 counterexample: on a record with balance -1 (such records arise from
loading a line like A|1|-1.000000), deposit of 1 followed by withdraw of 1
does not return the balance to its original value: the withdrawal throws
InsufficientFunds instead of producing a record. -/
theorem c7_counterexample :
    (BankAccount.add ⟨("A").data, 1, -1⟩ 1).bind (fun a => a.sub 1) =
      .error .insufficientFunds := by
  with_unfolding_all rfl

/-- C7 (amended): for every account record whose balance is non-negative and
every non-negative amount, deposit via operator+ followed by withdraw via
operator- of the same amount returns exactly the original record. -/
theorem c7_deposit_withdraw_roundtrip :
    ∀ (acc : BankAccount) (amt : ℚ), 0 ≤ acc.balance → 0 ≤ amt →
      (acc.add amt).bind (fun a => a.sub amt) = .ok acc := by
  intro acc amt hbal hamt
  obtain ⟨nm, no, bal⟩ := acc
  have hb : (0 : ℚ) ≤ bal := hbal
  have h1 : ¬ amt < 0 := not_lt.mpr hamt
  have h2 : ¬ bal + amt < amt := by linarith
  simp only [BankAccount.add, BankAccount.sub, Except.bind, if_neg h1, if_neg h2]
  simp only [Except.ok.injEq, BankAccount.mk.injEq, true_and, and_true, eq_self_iff_true]
  ring

theorem c7_deposit_withdraw_roundtrip_witness :
    (BankAccount.add ⟨("A").data, 1, 5⟩ 2).bind (fun a => a.sub 2) =
      .ok ⟨("A").data, 1, 5⟩ :=
  c7_deposit_withdraw_roundtrip ⟨("A").data, 1, 5⟩ 2 (by norm_num) (by norm_num)

/-- C4 counterexample: the record with owner A (which contains no delimiter),
id 1 and balance 10⁻⁷ serializes to the line A|1|0.000000 - std::to_string
prints only six decimals - so the round-trip returns balance 0, not the
original balance: deserialize(serialize(r)) ≠ r. -/
theorem c4_counterexample :
    BankAccount.deserialize (BankAccount.serialize ⟨("A").data, 1, 1 / 10000000⟩) =
      some ⟨("A").data, 1, 0⟩ ∧ (1 / 10000000 : ℚ) ≠ 0 := by
  refine ⟨by with_unfolding_all decide, by norm_num⟩

/-- C4 (amended): for every account record whose owner contains no delimiter
character and whose balance is an integer multiple of 10⁻⁶ (the precision of
the std::to_string decimal field), the round-trip deserialize(serialize(r))
returns exactly r: owner, id and balance are preserved. -/
theorem c4_serialize_roundtrip (acc : BankAccount) (z : ℤ)
    (hname : '|' ∉ acc.name) (hbal : acc.balance = (z : ℚ) / 1000000) :
    BankAccount.deserialize (BankAccount.serialize acc) = some acc := by
  show BankAccount.fromRecord (BankAccount.toRecord acc) = some acc
  rw [fromRecord_toRecord acc hname]
  have hz : acc.balance * 1000000 = (z : ℚ) := by
    rw [hbal]
    field_simp
  rw [hz, round_intCast, ← hbal]

theorem c4_serialize_roundtrip_witness :
    BankAccount.deserialize (BankAccount.serialize ⟨("Alice").data, 1001, 1500⟩) =
      some ⟨("Alice").data, 1001, 1500⟩ :=
  c4_serialize_roundtrip ⟨("Alice").data, 1001, 1500⟩ 1500000000 (by decide) (by norm_num)

theorem fromRecord_nil : BankAccount.fromRecord [] = none := rfl

theorem filterMap_skip_empty (ls : List Str) :
    ls.filterMap (fun line => if line = [] then none else BankAccount.fromRecord line) =
      ls.filterMap BankAccount.fromRecord := by
  induction ls with
  | nil => rfl
  | cons l ls ih =>
    by_cases hl : l = []
    · subst hl
      simp [List.filterMap_cons, fromRecord_nil, ih]
    · simp [List.filterMap_cons, if_neg hl, ih]

/-- C5 counterexample: the two near-identical loaders disagree. On a file
holding one well-formed line and one line missing a delimiter, bank.cpp's
loadAll does not skip the malformed line: deserialize throws (the line is
longer than two characters and there is no handler) and the whole load
aborts, while bank_full_system.cpp's loadAllAccounts on the same content
returns exactly the one well-formed record. -/
theorem c5_counterexample :
    loadAll (some (("Alice|1001|1500.000000\nab|cd\n").data)) = none ∧
    loadAllAccounts (some (("Alice|1001|1500.000000\nab|cd\n").data)) =
      [⟨("Alice").data, 1001, 1500⟩] := by
  refine ⟨by with_unfolding_all rfl, by with_unfolding_all decide⟩

/-- C5 (amended): for loadAllAccounts (bank_full_system.cpp) the claim holds:
a missing backing file yields the empty sequence; a file of
newline-terminated lines yields one record per line the parser accepts, in
file order, skipping the rest without aborting; in particular a file with
one well-formed line and one line missing the delimiter yields exactly one
record. bank.cpp's loadAll instead skips only lines of length at most two
and propagates the parse exception of a longer malformed line. -/
theorem c5_load_all (lines : List Str) (hnl : ∀ l ∈ lines, '\n' ∉ l) :
    loadAllAccounts none = [] ∧
    loadAllAccounts (some (joinLines lines)) = lines.filterMap BankAccount.fromRecord ∧
    loadAllAccounts (some (("Alice|1001|1500.000000\nBob1002800.00\n").data)) =
      [⟨("Alice").data, 1001, 1500⟩] := by
  refine ⟨rfl, ?_, by with_unfolding_all decide⟩
  show (splitLines (joinLines lines)).filterMap
      (fun line => if line = [] then none else BankAccount.fromRecord line) =
    lines.filterMap BankAccount.fromRecord
  rw [splitLines_joinLines lines hnl, filterMap_skip_empty]

theorem c5_load_all_witness :
    (∀ l ∈ [("X|7|2.000000").data], '\n' ∉ l) ∧
    loadAllAccounts (some (joinLines [("X|7|2.000000").data])) =
      [⟨("X").data, 7, 2⟩] := by
  refine ⟨by decide, ?_⟩
  rw [(c5_load_all [("X|7|2.000000").data] (by decide)).2.1]
  with_unfolding_all decide

theorem getD_mem {α : Type} : ∀ (l : List α) (i : ℕ) (d : α), i < l.length →
    l.getD i d ∈ l := by
  intro l
  induction l with
  | nil => intro i d h; simp at h
  | cons a l ih =>
    intro i d h
    cases i with
    | zero => exact List.mem_cons_self a l
    | succ i =>
      simp only [List.getD_cons_succ]
      exact List.mem_cons_of_mem a (ih i d (by simpa using h))

theorem committedList_nonneg (l : List BankAccount) (i j : ℕ) (amount : ℚ)
    (hall : ∀ a ∈ l, 0 ≤ a.balance) (hamt : 0 ≤ amount) (hi : i < l.length)
    (hj : j < l.length) (hbal : amount ≤ (l.getD i dummyAccount).balance) :
    ∀ a ∈ committedList l i j amount, 0 ≤ a.balance := by
  intro a ha
  simp only [committedList] at ha
  have hFrom : 0 ≤ (l.getD i dummyAccount).balance - amount := by linarith
  have hl1 : ∀ b ∈ l.set i { l.getD i dummyAccount with
      balance := (l.getD i dummyAccount).balance - amount }, 0 ≤ b.balance := by
    intro b hb
    rcases List.mem_or_eq_of_mem_set hb with hb | hb
    · exact hall b hb
    · rw [hb]
      exact hFrom
  rcases List.mem_or_eq_of_mem_set ha with ha | ha
  · exact hl1 a ha
  · rw [ha]
    have hj' : j < (l.set i { l.getD i dummyAccount with
        balance := (l.getD i dummyAccount).balance - amount }).length := by
      simpa using hj
    have := hl1 _ (getD_mem _ j dummyAccount hj')
    simp only
    linarith

/-- C2: each validation failure of transferFunds is raised before any write:
a non-positive amount fails with InvalidArgument, an absent source or
destination id fails with AccountNotFound, a source balance below the amount
fails with InsufficientFunds, and in all three cases the call returns the
file state unchanged - the accounts file bytes are identical and no journal
line is appended. -/
theorem c2_transfer_failure_atomic (fromAcc toAcc : ℤ) (amount : ℚ) (fs : FileState) :
    (amount ≤ 0 → transferFunds fromAcc toAcc amount fs = (fs, .error .invalidArgument)) ∧
    (0 < amount →
      (findAccountIndex (loadAllAccounts fs.accountsFile) fromAcc = none ∨
        findAccountIndex (loadAllAccounts fs.accountsFile) toAcc = none) →
      transferFunds fromAcc toAcc amount fs = (fs, .error .accountNotFound)) ∧
    (∀ i j, 0 < amount →
      findAccountIndex (loadAllAccounts fs.accountsFile) fromAcc = some i →
      findAccountIndex (loadAllAccounts fs.accountsFile) toAcc = some j →
      ((loadAllAccounts fs.accountsFile).getD i dummyAccount).balance < amount →
      transferFunds fromAcc toAcc amount fs = (fs, .error .insufficientFunds)) := by
  refine ⟨fun h0 => by simp [transferFunds, if_pos h0], fun h0 hnone => ?_,
    fun i j h0 hi hj hlt => ?_⟩
  · have hne : ¬ amount ≤ 0 := not_le.mpr h0
    rcases hnone with hn | hn
    · cases hto : findAccountIndex (loadAllAccounts fs.accountsFile) toAcc with
      | none => simp [transferFunds, if_neg hne, hn, hto]
      | some j => simp [transferFunds, if_neg hne, hn, hto]
    · cases hfrom : findAccountIndex (loadAllAccounts fs.accountsFile) fromAcc with
      | none => simp [transferFunds, if_neg hne, hn, hfrom]
      | some i => simp [transferFunds, if_neg hne, hn, hfrom]
  · have hne : ¬ amount ≤ 0 := not_le.mpr h0
    simp only [transferFunds, if_neg hne, hi, hj, if_pos hlt]

theorem c2_transfer_failure_atomic_witness :
    transferFunds 1001 1002 (-5) demoState = (demoState, .error .invalidArgument) ∧
    transferFunds 1001 9999 50 demoState = (demoState, .error .accountNotFound) ∧
    transferFunds 1001 1002 99999 demoState = (demoState, .error .insufficientFunds) := by
  refine ⟨(c2_transfer_failure_atomic 1001 1002 (-5) demoState).1 (by norm_num),
    (c2_transfer_failure_atomic 1001 9999 50 demoState).2.1 (by norm_num)
      (Or.inr (by with_unfolding_all rfl)),
    (c2_transfer_failure_atomic 1001 1002 99999 demoState).2.2 0 1 (by norm_num)
      (by with_unfolding_all rfl) (by with_unfolding_all rfl)
      (by with_unfolding_all decide)⟩

/-- C10: the boolean returned by transferFunds never carries failure
information: whenever the call returns at all (does not throw), the returned
boolean is true; every failure path raises an exception instead. -/
theorem c10_transfer_bool (fromAcc toAcc : ℤ) (amount : ℚ) (fs : FileState) (b : Bool)
    (h : (transferFunds fromAcc toAcc amount fs).2 = .ok b) : b = true := by
  simp only [transferFunds] at h
  repeat' split at h
  all_goals simp_all

theorem c10_transfer_bool_witness :
    (transferFunds 1001 1002 200 demoState).2 = .ok true ∧ true = true :=
  ⟨by with_unfolding_all rfl,
    c10_transfer_bool 1001 1002 200 demoState true (by with_unfolding_all rfl)⟩

/-- C1 counterexample: the self-transfer transferFunds(1001, 1001, 200) on the
demo store meets every stated success condition (amount positive, both ids
present, source balance at least the amount) and succeeds, yet the committed
store is byte-identical to the original: account 1001 still holds 1500.00,
its balance is not decreased by the amount (1500 ≠ 1500 - 200). -/
theorem c1_counterexample :
    (transferFunds 1001 1001 200 demoState).2 = .ok true ∧
    (transferFunds 1001 1001 200 demoState).1.accountsFile = demoState.accountsFile ∧
    (1500 : ℚ) ≠ 1500 - 200 := by
  refine ⟨by with_unfolding_all rfl, by with_unfolding_all decide, by norm_num⟩

/-- C1 (amended): for every transfer with distinct located source and
destination indices that succeeds (positive amount, both ids present, source
balance at least the amount, both files writable), the call returns true,
the committed store is exactly the serialization of the loaded records with
the source balance decreased by the amount and the destination balance
increased by the amount, the journal gains exactly one entry, and the sum of
all balances in the committed records equals the sum over the loaded
records. -/
theorem c1_transfer_success (fromAcc toAcc : ℤ) (amount : ℚ) (fs : FileState) (i j : ℕ)
    (hij : i ≠ j) (hamt : 0 < amount)
    (hf : findAccountIndex (loadAllAccounts fs.accountsFile) fromAcc = some i)
    (ht : findAccountIndex (loadAllAccounts fs.accountsFile) toAcc = some j)
    (hbal : amount ≤ ((loadAllAccounts fs.accountsFile).getD i dummyAccount).balance)
    (htw : fs.transactionsWritable = true) (haw : fs.accountsWritable = true) :
    transferFunds fromAcc toAcc amount fs =
      (⟨some (serializeAll (committedList (loadAllAccounts fs.accountsFile) i j amount)),
        fs.transactionsFile ++
          Transaction.toRecord ⟨fromAcc, toAcc, amount, ("transfer").data⟩,
        fs.accountsWritable, fs.transactionsWritable⟩, .ok true) ∧
    ((committedList (loadAllAccounts fs.accountsFile) i j amount).getD i
        dummyAccount).balance =
      ((loadAllAccounts fs.accountsFile).getD i dummyAccount).balance - amount ∧
    ((committedList (loadAllAccounts fs.accountsFile) i j amount).getD j
        dummyAccount).balance =
      ((loadAllAccounts fs.accountsFile).getD j dummyAccount).balance + amount ∧
    ((committedList (loadAllAccounts fs.accountsFile) i j amount).map
        BankAccount.balance).sum =
      ((loadAllAccounts fs.accountsFile).map BankAccount.balance).sum := by
  have hi : i < (loadAllAccounts fs.accountsFile).length :=
    findAccountIndex_lt_length _ _ _ hf
  have hj : j < (loadAllAccounts fs.accountsFile).length :=
    findAccountIndex_lt_length _ _ _ ht
  refine ⟨transferFunds_commits fromAcc toAcc amount fs i j hamt hf ht hbal htw haw,
    ?_, ?_, ?_⟩
  · simp only [committedList]
    rw [getD_set_ne _ j i _ _ (Ne.symm hij), getD_set_self _ i _ _ hi]
  · simp only [committedList]
    rw [getD_set_self _ j _ _ (by simpa using hj),
      getD_set_ne _ i j _ _ hij]
  · simp only [committedList]
    rw [map_balance_set, map_balance_set]
    rw [sum_set _ j _ (by simpa using hj), sum_set _ i _ (by simpa using hi)]
    rw [getD_set_ne ((loadAllAccounts fs.accountsFile).map BankAccount.balance) i j _ _ hij]
    rw [getD_map_balance _ i hi, getD_map_balance _ j hj]
    rw [getD_set_ne _ i j _ _ hij]
    ring

theorem c1_transfer_success_witness :
    (0 : ℕ) ≠ 1 ∧ (0 : ℚ) < 200 ∧
    (transferFunds 1001 1002 200 demoState).2 = .ok true := by
  refine ⟨by decide, by norm_num, ?_⟩
  have h := (c1_transfer_success 1001 1002 200 demoState 0 1 (by decide) (by norm_num)
    (by with_unfolding_all rfl) (by with_unfolding_all rfl)
    (by with_unfolding_all decide) rfl rfl).1
  rw [h]

/-- C9: frame property of a successful transfer: the committed store is the
serialization of the loaded record list in which only the two located
balances are updated - every record at an index other than the two located
indices is written back unchanged, the owner and id fields of the two
affected records are unchanged, and the number and order of records is
preserved (the length is unchanged and position k holds the record loaded
from position k). -/
theorem c9_transfer_frame (fromAcc toAcc : ℤ) (amount : ℚ) (fs : FileState) (i j : ℕ)
    (hamt : 0 < amount)
    (hf : findAccountIndex (loadAllAccounts fs.accountsFile) fromAcc = some i)
    (ht : findAccountIndex (loadAllAccounts fs.accountsFile) toAcc = some j)
    (hbal : amount ≤ ((loadAllAccounts fs.accountsFile).getD i dummyAccount).balance)
    (htw : fs.transactionsWritable = true) (haw : fs.accountsWritable = true) :
    (transferFunds fromAcc toAcc amount fs).1.accountsFile =
      some (serializeAll (committedList (loadAllAccounts fs.accountsFile) i j amount)) ∧
    (committedList (loadAllAccounts fs.accountsFile) i j amount).length =
      (loadAllAccounts fs.accountsFile).length ∧
    (∀ k, k ≠ i → k ≠ j →
      (committedList (loadAllAccounts fs.accountsFile) i j amount).getD k dummyAccount =
        (loadAllAccounts fs.accountsFile).getD k dummyAccount) ∧
    ((committedList (loadAllAccounts fs.accountsFile) i j amount).getD i
        dummyAccount).name = ((loadAllAccounts fs.accountsFile).getD i dummyAccount).name ∧
    ((committedList (loadAllAccounts fs.accountsFile) i j amount).getD i
        dummyAccount).accNumber =
      ((loadAllAccounts fs.accountsFile).getD i dummyAccount).accNumber ∧
    ((committedList (loadAllAccounts fs.accountsFile) i j amount).getD j
        dummyAccount).name = ((loadAllAccounts fs.accountsFile).getD j dummyAccount).name ∧
    ((committedList (loadAllAccounts fs.accountsFile) i j amount).getD j
        dummyAccount).accNumber =
      ((loadAllAccounts fs.accountsFile).getD j dummyAccount).accNumber := by
  have hi : i < (loadAllAccounts fs.accountsFile).length :=
    findAccountIndex_lt_length _ _ _ hf
  have hj : j < (loadAllAccounts fs.accountsFile).length :=
    findAccountIndex_lt_length _ _ _ ht
  refine ⟨by rw [transferFunds_commits fromAcc toAcc amount fs i j hamt hf ht hbal htw haw],
    by simp [committedList], fun k hki hkj => ?_, ?_, ?_, ?_, ?_⟩
  · simp only [committedList]
    rw [getD_set_ne _ j k _ _ (Ne.symm hkj), getD_set_ne _ i k _ _ (Ne.symm hki)]
  · by_cases hij : i = j
    · subst hij
      simp only [committedList]
      rw [getD_set_self _ i _ _ (by simpa using hi), getD_set_self _ i _ _ hi]
    · simp only [committedList]
      rw [getD_set_ne _ j i _ _ (fun h => hij h.symm), getD_set_self _ i _ _ hi]
  · by_cases hij : i = j
    · subst hij
      simp only [committedList]
      rw [getD_set_self _ i _ _ (by simpa using hi), getD_set_self _ i _ _ hi]
    · simp only [committedList]
      rw [getD_set_ne _ j i _ _ (fun h => hij h.symm), getD_set_self _ i _ _ hi]
  · by_cases hij : i = j
    · subst hij
      simp only [committedList]
      rw [getD_set_self _ i _ _ (by simpa using hi), getD_set_self _ i _ _ hi]
    · simp only [committedList]
      rw [getD_set_self _ j _ _ (by simpa using hj), getD_set_ne _ i j _ _ hij]
  · by_cases hij : i = j
    · subst hij
      simp only [committedList]
      rw [getD_set_self _ i _ _ (by simpa using hi), getD_set_self _ i _ _ hi]
    · simp only [committedList]
      rw [getD_set_self _ j _ _ (by simpa using hj), getD_set_ne _ i j _ _ hij]

theorem c9_transfer_frame_witness :
    (0 : ℚ) < 200 ∧
    (transferFunds 1001 1002 200 demoState).1.accountsFile =
      some (serializeAll (committedList (loadAllAccounts demoState.accountsFile) 0 1 200)) :=
  ⟨by norm_num,
    (c9_transfer_frame 1001 1002 200 demoState 0 1 (by norm_num)
      (by with_unfolding_all rfl) (by with_unfolding_all rfl)
      (by with_unfolding_all decide) rfl rfl).1⟩

/-- C6: the non-negative balance invariant is preserved by every mutation the
deposit/withdraw interface commits: deposit of a non-negative amount
(updateBalance, operator-style update), successful withdrawal
(updateBalance2 and update2 with the withdraw flag), and a successful
file-backed transfer, whose committed record list keeps every balance
non-negative when every loaded balance was. -/
theorem c6_nonneg_invariant :
    (∀ (acc : BankAccount) (amt : ℚ) (r : BankAccount), 0 ≤ acc.balance → 0 ≤ amt →
      acc.updateBalance amt = .ok r → 0 ≤ r.balance) ∧
    (∀ (acc : BankAccount) (amt : ℚ) (r : BankAccount), 0 ≤ acc.balance →
      acc.updateBalance2 amt true = .ok r → 0 ≤ r.balance) ∧
    (∀ (acc : BankAccount) (amt : ℚ), 0 ≤ acc.balance → 0 ≤ amt →
      0 ≤ (acc.update amt).balance) ∧
    (∀ (acc : BankAccount) (amt : ℚ) (r : BankAccount), 0 ≤ acc.balance →
      acc.update2 amt true = .ok r → 0 ≤ r.balance) ∧
    (∀ (f t : ℤ) (amount : ℚ) (fs : FileState) (i j : ℕ),
      (∀ a ∈ loadAllAccounts fs.accountsFile, 0 ≤ a.balance) → 0 < amount →
      findAccountIndex (loadAllAccounts fs.accountsFile) f = some i →
      findAccountIndex (loadAllAccounts fs.accountsFile) t = some j →
      amount ≤ ((loadAllAccounts fs.accountsFile).getD i dummyAccount).balance →
      fs.transactionsWritable = true → fs.accountsWritable = true →
      (transferFunds f t amount fs).1.accountsFile =
        some (serializeAll (committedList (loadAllAccounts fs.accountsFile) i j amount)) ∧
      ∀ a ∈ committedList (loadAllAccounts fs.accountsFile) i j amount, 0 ≤ a.balance) := by
  refine ⟨?_, ?_, ?_, ?_, ?_⟩
  · intro acc amt r hb ha h
    simp only [BankAccount.updateBalance, if_neg (not_lt.mpr ha)] at h
    injection h with h
    rw [← h]
    simp only
    linarith
  · intro acc amt r hb h
    by_cases hneg : amt < 0
    · simp only [BankAccount.updateBalance2, if_pos hneg] at h
      cases h
    · by_cases hlt : acc.balance < amt
      · simp only [BankAccount.updateBalance2, if_neg hneg, if_pos rfl, if_pos hlt] at h
        cases h
      · simp only [BankAccount.updateBalance2, if_neg hneg, if_pos rfl, if_neg hlt] at h
        injection h with h
        rw [← h]
        simp only
        linarith [not_lt.mp hlt]
  · intro acc amt hb ha
    simp only [BankAccount.update]
    linarith
  · intro acc amt r hb h
    by_cases hlt : acc.balance < amt
    · simp only [BankAccount.update2, if_pos rfl, if_pos hlt] at h
      cases h
    · simp only [BankAccount.update2, if_pos rfl, if_neg hlt] at h
      injection h with h
      rw [← h]
      simp only
      linarith [not_lt.mp hlt]
  · intro f t amount fs i j hall hamt hf ht hbal htw haw
    have hi : i < (loadAllAccounts fs.accountsFile).length :=
      findAccountIndex_lt_length _ _ _ hf
    have hj : j < (loadAllAccounts fs.accountsFile).length :=
      findAccountIndex_lt_length _ _ _ ht
    exact ⟨by rw [transferFunds_commits f t amount fs i j hamt hf ht hbal htw haw],
      committedList_nonneg _ i j amount hall (le_of_lt hamt) hi hj hbal⟩

theorem c6_nonneg_invariant_witness :
    (0 : ℚ) ≤ 5 ∧ (0 : ℚ) ≤ 2 ∧
    0 ≤ (BankAccount.update ⟨("A").data, 1, 5⟩ 2).balance :=
  ⟨by norm_num, by norm_num,
    c6_nonneg_invariant.2.2.1 ⟨("A").data, 1, 5⟩ 2 (by norm_num) (by norm_num)⟩

/-- C8 counterexample: the demo transfer appends exactly one journal line, but
that line is 1001|1002|200.000000|transfer (std::to_string prints the amount
with six decimals), not the claimed 1001|1002|200.00|transfer. -/
theorem c8_counterexample :
    (transferFunds 1001 1002 200 demoState).1.transactionsFile =
      ("1001|1002|200.000000|transfer\n").data ∧
    ("1001|1002|200.000000|transfer\n").data ≠ ("1001|1002|200.00|transfer\n").data := by
  refine ⟨by with_unfolding_all decide, by decide⟩

/-- C8 (amended): on the store holding Alice (1001, 1500.00) and Bob
(1002, 800.00), transferFunds(1001, 1002, 200.00) succeeds; the committed
store shows balance 1300.00 for account 1001 and 1000.00 for account 1002
(both as bytes of the store file and as the records loaded back from it);
the journal gains exactly the one line 1001|1002|200.000000|transfer. -/
theorem c8_transfer_scenario :
    (transferFunds 1001 1002 200 demoState).2 = .ok true ∧
    (transferFunds 1001 1002 200 demoState).1.accountsFile =
      some (("Alice|1001|1300.000000\nBob|1002|1000.000000\n").data) ∧
    loadAllAccounts (transferFunds 1001 1002 200 demoState).1.accountsFile =
      [⟨("Alice").data, 1001, 1300⟩, ⟨("Bob").data, 1002, 1000⟩] ∧
    (transferFunds 1001 1002 200 demoState).1.transactionsFile =
      demoState.transactionsFile ++ ("1001|1002|200.000000|transfer\n").data := by
  refine ⟨by with_unfolding_all rfl, by with_unfolding_all decide,
    by with_unfolding_all decide, by with_unfolding_all decide⟩
